import Mathlib

/-
Verification of the cache subsystem of the BiteBase backend
(src/app/core/cache.py): the Cache class (get/set/delete/clear over a
Redis backend or the in-process dictionary fallback) and the memoizing
decorator that derives a cache key from a function's name and arguments.

Shallow embedding conventions:
* Python values reaching the cache are modelled by the inductive Val.
  Python None is Val.vNone; it is both the stored-nothing marker that
  Cache.get returns for absent keys and an ordinary storable value,
  exactly as in the source.
* The in-process dictionary self.in_memory_cache is an association list
  from namespaced keys to entries; dictionary assignment, lookup and del
  become storeInsert, storeLookup and storeRemove.
* time.time() is passed explicitly as a natural-number argument.
* Python truthiness tests in the source (if ttl, if namespace,
  if entry's expires_at, if value) are modelled by the corresponding
  explicit Bool functions.
* The Redis client and the json module are external collaborators; their
  calls are fields of the Backend structure and return Except Unit results,
  an error standing for a raised exception (connection loss, timeout,
  serialization failure).  The try/except blocks of the source become
  the match on the assembled Except value.
-/

/-- A Python value as stored in the cache.  vNone/vBool/vInt/vStr are the
JSON-primitive values that `Cache._serialize` dumps directly; vObj stands
for any other Python object (identified by an id), which the in-process
backend stores by reference and the Redis path serializes through
json.dumps with a default handler. -/
inductive Val : Type
  | vNone : Val
  | vBool : Bool → Val
  | vInt : Int → Val
  | vStr : String → Val
  | vObj : Nat → Val
  deriving DecidableEq, Repr

/-- One entry of the in-process dictionary: the stored value and the
optional absolute expiry time, as written by `Cache.set`. -/
structure Entry where
  value : Val
  expires_at : Option Nat
  deriving DecidableEq, Repr

/-- Dictionary lookup on the association list modelling in_memory_cache. -/
def storeLookup (ck : String) : List (String × Entry) → Option Entry
  | [] => none
  | kv :: rest => if kv.1 = ck then some kv.2 else storeLookup ck rest

/-- Removal of a key (Python del) from the association list. -/
def storeRemove (ck : String) : List (String × Entry) → List (String × Entry)
  | [] => []
  | kv :: rest => if kv.1 = ck then storeRemove ck rest else kv :: storeRemove ck rest

/-- Dictionary assignment: the key now maps to exactly this entry. -/
def storeInsert (ck : String) (e : Entry) (st : List (String × Entry)) :
    List (String × Entry) :=
  (ck, e) :: storeRemove ck st

/-- Truthiness of the optional ttl argument: Python `if ttl:` is false for
None and for 0. -/
def ttlTruthy : Option Nat → Bool
  | none => false
  | some n => decide (n ≠ 0)

/-- Truthiness of an optional namespace string: `if namespace:` is false
for None and for the empty string. -/
def optStrTruthy : Option String → Bool
  | none => false
  | some s => decide (s ≠ "")

/-- The expiry test of `Cache.get`:
`entry["expires_at"] and entry["expires_at"] < time.time()` —
a None (or zero, by float truthiness) expires_at never expires. -/
def isExpired (ea : Option Nat) (now : Nat) : Bool :=
  match ea with
  | none => false
  | some t => decide (t ≠ 0) && decide (t < now)

/-- `Cache._generate_key`: prepend the process namespace with a colon. -/
def generate_key (ns key : String) : String := ns ++ ":" ++ key

/-- `Cache.get` on the in-process backend: look up the namespaced key; an
expired entry is deleted and reported absent (None); a missing key is
None; otherwise the stored value is returned.  The state component is
the dictionary after the call (eager eviction). -/
def Cache.getMem (st : List (String × Entry)) (ns key : String) (now : Nat) :
    List (String × Entry) × Val :=
  match storeLookup (generate_key ns key) st with
  | none => (st, Val.vNone)
  | some e =>
    if isExpired e.expires_at now then (storeRemove (generate_key ns key) st, Val.vNone)
    else (st, e.value)

/-- `Cache.set` on the in-process backend: store the raw value (no
serialization happens on this path) under the namespaced key with
expires_at = now + ttl when ttl is truthy, else None; always True. -/
def Cache.setMem (st : List (String × Entry)) (ns key : String) (v : Val)
    (ttl : Option Nat) (now : Nat) : List (String × Entry) × Bool :=
  (storeInsert (generate_key ns key)
    ⟨v, if ttlTruthy ttl then some (now + ttl.getD 0) else none⟩ st, true)

/-- `Cache.delete` on the in-process backend: remove the namespaced key if
present (True), else False. -/
def Cache.deleteMem (st : List (String × Entry)) (ns key : String) :
    List (String × Entry) × Bool :=
  match storeLookup (generate_key ns key) st with
  | some _ => (storeRemove (generate_key ns key) st, true)
  | none => (st, false)

/-- Python str.startswith, used by `Cache.clear` to select the keys of a
namespace. -/
def startswith (s pre : String) : Bool := pre.data.isPrefixOf s.data

/-- `Cache.clear` on the in-process backend: with a truthy namespace,
delete exactly the keys starting with "namespace:"; otherwise clear the
whole dictionary.  Always returns True on this path. -/
def Cache.clearMem (st : List (String × Entry)) (nso : Option String) :
    List (String × Entry) × Bool :=
  if optStrTruthy nso then
    (st.filter (fun kv => !(startswith kv.1 ((nso.getD "") ++ ":"))), true)
  else ([], true)

/-- External collaborators of the Redis code path: the redis client
operations issued by Cache.get/set/delete/clear and the json module used
by Cache._serialize/_deserialize on that path.  An Except.error models a
raised exception (connection loss, timeout, serialization or decoding
failure); Cache's try/except blocks absorb them. -/
structure Backend where
  rGet : String → Except Unit (Option String)
  rSet : String → String → Except Unit Bool
  rSetex : String → Nat → String → Except Unit Bool
  rDelete : List String → Except Unit Nat
  rKeys : String → Except Unit (List String)
  rFlushdb : Except Unit Bool
  jDumpsObj : Nat → Except Unit String
  jLoads : String → Except Unit Val

/-- `Cache._serialize`: JSON-primitive values are dumped directly (this
never raises); any other object goes through json.dumps with the default
handler, modelled by the external jDumpsObj, which can raise (for
example on a circular reference). -/
def serialize (bk : Backend) (v : Val) : Except Unit String :=
  match v with
  | Val.vObj i => bk.jDumpsObj i
  | Val.vNone => Except.ok "null"
  | Val.vBool true => Except.ok "true"
  | Val.vBool false => Except.ok "false"
  | Val.vInt n => Except.ok (toString n)
  | Val.vStr s => Except.ok ("\"" ++ s ++ "\"")

/-- `Cache._deserialize`: an empty (falsy) payload is None, anything else
goes through json.loads, which can raise on undecodable data. -/
def deserialize (bk : Backend) (s : String) : Except Unit Val :=
  if s = "" then Except.ok Val.vNone else bk.jLoads s

/-- `Cache.get` on the Redis path: issue GET on the namespaced key; a
truthy (nonempty) reply is deserialized and returned, anything else
falls through to None; any exception is caught and absorbed to None. -/
def Cache.getRedis (bk : Backend) (ns key : String) : Val :=
  match (match bk.rGet (generate_key ns key) with
         | Except.error e => Except.error e
         | Except.ok none => Except.ok Val.vNone
         | Except.ok (some s) =>
           if s ≠ "" then deserialize bk s else Except.ok Val.vNone) with
  | Except.ok v => v
  | Except.error _ => Val.vNone

/-- `Cache.set` on the Redis path: serialize the value, then SETEX with
the ttl when the ttl is truthy, else a plain SET; any exception
(serialization or backend) is caught and absorbed to False. -/
def Cache.setRedis (bk : Backend) (ns key : String) (v : Val) (ttl : Option Nat) :
    Bool :=
  match (match serialize bk v with
         | Except.error e => Except.error e
         | Except.ok s =>
           if ttlTruthy ttl then bk.rSetex (generate_key ns key) (ttl.getD 0) s
           else bk.rSet (generate_key ns key) s) with
  | Except.ok b => b
  | Except.error _ => false

/-- `Cache.delete` on the Redis path: DEL on the namespaced key, truthy
deletion count; exceptions absorbed to False. -/
def Cache.deleteRedis (bk : Backend) (ns key : String) : Bool :=
  match bk.rDelete [generate_key ns key] with
  | Except.ok n => n != 0
  | Except.error _ => false

/-- `Cache.clear` on the Redis path: with a truthy namespace, KEYS on the
"namespace:*" pattern then DEL of the matches (a miss falls through to
the function's default, a falsy result, modelled as false); otherwise
FLUSHDB.  Exceptions absorbed to False. -/
def Cache.clearRedis (bk : Backend) (nso : Option String) : Bool :=
  match (if optStrTruthy nso then
           match bk.rKeys ((nso.getD "") ++ ":*") with
           | Except.error e => Except.error e
           | Except.ok keys =>
             if keys ≠ [] then
               match bk.rDelete keys with
               | Except.error e => Except.error e
               | Except.ok n => Except.ok (n != 0)
             else Except.ok false
         else bk.rFlushdb) with
  | Except.ok b => b
  | Except.error _ => false

/-- An argument of a memoized call, as the `cached` wrapper's key loop
sees it.  prim is a value without a __dict__ attribute, carrying its str()
rendering; obj is a value with a __dict__ (the list of attribute items,
each rendered to a string), together with whether it has `method` and
`url` attributes — the wrapper's heuristic for a transient request
object. -/
inductive Arg : Type
  | prim : String → Arg
  | obj : List (String × String) → Bool → Bool → Arg
  deriving DecidableEq, Repr

/-- A deterministic stand-in for Python hash on strings. -/
def strHash (s : String) : Nat :=
  s.data.foldl (fun h c => h * 31 + c.toNat) 7

/-- Hash of one __dict__ item. -/
def itemHash (p : String × String) : Nat :=
  strHash p.1 * 1000003 + strHash p.2

/-- Models Python hash(frozenset(d.items())): a deterministic,
order-independent combination of the item hashes. -/
def frozensetHash (items : List (String × String)) : Nat :=
  (items.map itemHash).sum

/-- Key part contributed by one positional argument: objects that look
like requests (both method and url attributes) are skipped; other
objects contribute str(hash(frozenset(d.items()))); plain values
contribute str(arg). -/
def argKeyPart : Arg → Option String
  | Arg.prim s => some s
  | Arg.obj fields hm hu =>
    if hm && hu then none else some (toString (frozensetHash fields))

/-- Key part contributed by one keyword argument: the source has no
request-skipping here, so an object value always contributes
"name:hash(frozenset(d.items()))" and a plain value "name:str(v)". -/
def kwargKeyPart (p : String × Arg) : String :=
  match p.2 with
  | Arg.prim s => p.1 ++ ":" ++ s
  | Arg.obj fields _ _ => p.1 ++ ":" ++ toString (frozensetHash fields)

/-- Ordering used by sorted(kwargs.items()): compare the keyword names
(in a dict the names are unique, so the value components never take part
in the comparison). -/
def keyLe (a b : String × Arg) : Prop := a.1 ≤ b.1

instance : DecidableRel keyLe := fun a b => inferInstanceAs (Decidable (a.1 ≤ b.1))

instance : IsTotal (String × Arg) keyLe := ⟨fun a b => le_total a.1 b.1⟩

instance : IsTrans (String × Arg) keyLe := ⟨fun _ _ _ h1 h2 => le_trans h1 h2⟩

/-- sorted(kwargs.items()). -/
def sortKwargs (l : List (String × Arg)) : List (String × Arg) :=
  l.insertionSort keyLe

/-- The joined key material of the `cached` wrapper: prefix-or-name,
then the positional parts, then the sorted keyword parts, joined with
":".  The source then applies md5 hexdigest, a fixed deterministic
digest, to this string; the claims about key derivation are therefore
stated on the digest's input. -/
def deriveKeyMaterial (kp fn : String) (args : List Arg)
    (kwargs : List (String × Arg)) : String :=
  String.intercalate ":"
    ((if kp ≠ "" then kp else fn) ::
      (args.filterMap argKeyPart ++ (sortKwargs kwargs).map kwargKeyPart))

/-- Result of one invocation of the memoized wrapper over the in-process
backend: the returned value, the cache dictionary afterwards, the
wrapped computation's state afterwards, and how many times the wrapped
computation was invoked during this call (0 on a hit, 1 on a miss). -/
structure CallResult (σ : Type) where
  value : Val
  cache : List (String × Entry)
  compState : σ
  invocations : Nat

/-- One call of the wrapper produced by the `cached` decorator, over the
in-process backend: derive the key, try cache.get; a non-None cached
value is returned without running the computation; otherwise run the
computation (modelled as a state transformer so invocations are
observable), cache.set the result with the decorator's ttl, and return
it. -/
def cachedCallMem {σ : Type} (ttl : Nat) (kp fn : String) (f : σ → σ × Val)
    (args : List Arg) (kwargs : List (String × Arg))
    (st : List (String × Entry)) (cs : σ) (ns : String) (now : Nat) :
    CallResult σ :=
  if (Cache.getMem st ns (deriveKeyMaterial kp fn args kwargs) now).2 ≠ Val.vNone then
    ⟨(Cache.getMem st ns (deriveKeyMaterial kp fn args kwargs) now).2,
     (Cache.getMem st ns (deriveKeyMaterial kp fn args kwargs) now).1, cs, 0⟩
  else
    ⟨(f cs).2,
     (Cache.setMem (Cache.getMem st ns (deriveKeyMaterial kp fn args kwargs) now).1
       ns (deriveKeyMaterial kp fn args kwargs) (f cs).2 (some ttl) now).1,
     (f cs).1, 1⟩

/-- Two successive calls of the same memoized wrapper with the same
arguments, at times t1 and t2, threading cache and computation state. -/
def twoCallsMem {σ : Type} (ttl : Nat) (kp fn : String) (f : σ → σ × Val)
    (args : List Arg) (kwargs : List (String × Arg))
    (st : List (String × Entry)) (cs : σ) (ns : String) (t1 t2 : Nat) :
    CallResult σ × CallResult σ :=
  (cachedCallMem ttl kp fn f args kwargs st cs ns t1,
   cachedCallMem ttl kp fn f args kwargs
     (cachedCallMem ttl kp fn f args kwargs st cs ns t1).cache
     (cachedCallMem ttl kp fn f args kwargs st cs ns t1).compState ns t2)

/-- Result of one invocation of the memoized wrapper over the Redis
backend: value, computation state, invocation count, and the boolean
cache.set returned on the miss path (false when nothing was stored). -/
structure RedisCallResult (σ : Type) where
  value : Val
  compState : σ
  invocations : Nat
  stored : Bool

/-- One call of the `cached` wrapper over the Redis backend. -/
def cachedCallRedis {σ : Type} (ttl : Nat) (kp fn : String) (f : σ → σ × Val)
    (args : List Arg) (kwargs : List (String × Arg)) (bk : Backend) (cs : σ)
    (ns : String) : RedisCallResult σ :=
  if Cache.getRedis bk ns (deriveKeyMaterial kp fn args kwargs) ≠ Val.vNone then
    ⟨Cache.getRedis bk ns (deriveKeyMaterial kp fn args kwargs), cs, 0, false⟩
  else
    ⟨(f cs).2, (f cs).1, 1,
     Cache.setRedis bk ns (deriveKeyMaterial kp fn args kwargs) (f cs).2 (some ttl)⟩

/-- A Redis backend in total outage: every command raises (connection
refused or timed out), and json fails on every non-primitive object. -/
def failingBackend : Backend where
  rGet := fun _ => Except.error ()
  rSet := fun _ _ => Except.error ()
  rSetex := fun _ _ _ => Except.error ()
  rDelete := fun _ => Except.error ()
  rKeys := fun _ => Except.error ()
  rFlushdb := Except.error ()
  jDumpsObj := fun _ => Except.error ()
  jLoads := fun _ => Except.error ()

/-- A reachable Redis backend that holds no keys, with a json module for
which no non-primitive object is serializable. -/
def missBackend : Backend where
  rGet := fun _ => Except.ok none
  rSet := fun _ _ => Except.ok true
  rSetex := fun _ _ _ => Except.ok true
  rDelete := fun _ => Except.ok 1
  rKeys := fun _ => Except.ok []
  rFlushdb := Except.ok true
  jDumpsObj := fun _ => Except.error ()
  jLoads := fun _ => Except.ok Val.vNone

theorem storeLookup_insert_self (ck : String) (e : Entry) (st : List (String × Entry)) :
    storeLookup ck (storeInsert ck e st) = some e := by
  simp [storeInsert, storeLookup]

theorem storeLookup_remove_self (ck : String) (st : List (String × Entry)) :
    storeLookup ck (storeRemove ck st) = none := by
  induction st with
  | nil => rfl
  | cons kv rest ih =>
    by_cases h : kv.1 = ck
    · simp [storeRemove, h, ih]
    · simp [storeRemove, storeLookup, h, ih]

theorem storeLookup_remove_ne (ck ck' : String) (h : ck' ≠ ck)
    (st : List (String × Entry)) :
    storeLookup ck' (storeRemove ck st) = storeLookup ck' st := by
  induction st with
  | nil => rfl
  | cons kv rest ih =>
    obtain ⟨k1, e⟩ := kv
    by_cases h1 : k1 = ck
    · have h2 : ¬(ck = ck') := fun hh => h hh.symm
      simp [storeRemove, storeLookup, h1, h2, ih]
    · by_cases h2 : k1 = ck'
      · have h3 : ¬(ck' = ck) := h
        simp [storeRemove, storeLookup, h1, h2, h3]
      · simp [storeRemove, storeLookup, h1, h2, ih]

theorem storeLookup_insert_ne (ck ck' : String) (e : Entry)
    (st : List (String × Entry)) (h : ck' ≠ ck) :
    storeLookup ck' (storeInsert ck e st) = storeLookup ck' st := by
  have h2 : ¬(ck = ck') := fun hh => h hh.symm
  simp [storeInsert, storeLookup, h2, storeLookup_remove_ne ck ck' h st]

theorem storeLookup_filter (p : String → Bool) (st : List (String × Entry))
    (ck : String) :
    storeLookup ck (st.filter (fun kv => !(p kv.1))) =
      if p ck then none else storeLookup ck st := by
  induction st with
  | nil => cases h : p ck <;> simp [storeLookup, h]
  | cons kv rest ih =>
    by_cases hk : kv.1 = ck
    · cases hp : p ck
      · have hp1 : p kv.1 = false := by rw [hk]; exact hp
        simp [List.filter_cons, hp1, storeLookup, hk, hp]
      · have hp1 : p kv.1 = true := by rw [hk]; exact hp
        simp [List.filter_cons, hp1, hp, ih]
    · cases hp1 : p kv.1
      · simp [List.filter_cons, hp1, storeLookup, hk, ih]
      · simp [List.filter_cons, hp1, storeLookup, hk, ih]

/-- The value a get returns only depends on what the namespaced key maps
to, not on the rest of the dictionary. -/
theorem getMem_val_congr (st1 st2 : List (String × Entry)) (ns k2 : String)
    (t' : Nat)
    (h : storeLookup (generate_key ns k2) st1 = storeLookup (generate_key ns k2) st2) :
    (Cache.getMem st1 ns k2 t').2 = (Cache.getMem st2 ns k2 t').2 := by
  cases hl : storeLookup (generate_key ns k2) st2 with
  | none =>
    rw [hl] at h
    simp [Cache.getMem, h, hl]
  | some e =>
    rw [hl] at h
    cases he : isExpired e.expires_at t'
    · simp [Cache.getMem, h, hl, he]
    · simp [Cache.getMem, h, hl, he]

theorem data_append (s t : String) : (s ++ t).data = s.data ++ t.data := by
  cases s with
  | mk d1 =>
    cases t with
    | mk d2 => rfl

theorem string_eq_of_data (a b : String) (h : a.data = b.data) : a = b := by
  cases a with
  | mk d1 =>
    cases b with
    | mk d2 =>
      cases h
      rfl

theorem generate_key_data (ns k : String) :
    (generate_key ns k).data = ns.data ++ ':' :: k.data := by
  show ((ns ++ ":") ++ k).data = _
  rw [data_append, data_append]
  have hc : (":" : String).data = [':'] := rfl
  rw [hc, List.append_assoc]
  rfl

/-- Cancellation of a separator that occurs in neither left part: if the
separator character is absent from a and from b, then a ++ x :: u and
b ++ x :: v can only be equal when a = b and u = v. -/
theorem append_cons_inj {α : Type} :
    ∀ (a b : List α) (x : α) (u v : List α),
      x ∉ a → x ∉ b → a ++ x :: u = b ++ x :: v → a = b ∧ u = v := by
  intro a
  induction a with
  | nil =>
    intro b x u v _ hxb heq
    cases b with
    | nil => simpa using heq
    | cons c b' =>
      simp only [List.nil_append, List.cons_append, List.cons.injEq] at heq
      apply absurd _ hxb
      rw [heq.1]
      exact List.mem_cons_self c b'
  | cons c a' ih =>
    intro b x u v hxa hxb heq
    cases b with
    | nil =>
      simp only [List.nil_append, List.cons_append, List.cons.injEq] at heq
      apply absurd _ hxa
      rw [← heq.1]
      exact List.mem_cons_self c a'
    | cons d b' =>
      simp only [List.cons_append, List.cons.injEq] at heq
      obtain ⟨hcd, heq'⟩ := heq
      have hr := ih b' x u v (fun hm => hxa (List.mem_cons_of_mem c hm))
        (fun hm => hxb (List.mem_cons_of_mem d hm)) heq'
      exact ⟨by rw [hcd, hr.1], hr.2⟩

theorem isPrefixOf_iff (p l : List Char) :
    p.isPrefixOf l = true ↔ ∃ t, l = p ++ t := by
  induction p generalizing l with
  | nil =>
    simp [List.isPrefixOf]
  | cons a p' ih =>
    cases l with
    | nil => simp [List.isPrefixOf]
    | cons b l' =>
      simp only [List.isPrefixOf, Bool.and_eq_true, beq_iff_eq, ih, List.cons_append,
        List.cons.injEq]
      constructor
      · rintro ⟨hab, t, ht⟩
        exact ⟨t, hab.symm, ht⟩
      · rintro ⟨t, hba, ht⟩
        exact ⟨hba.symm, t, ht⟩

/-- Distinct colon-free namespaces produce distinct stored keys. -/
theorem generate_key_inj (A B k1 k2 : String) (hA : ':' ∉ A.data)
    (hB : ':' ∉ B.data) (hAB : A ≠ B) :
    generate_key A k1 ≠ generate_key B k2 := by
  intro h
  have hd := congrArg String.data h
  rw [generate_key_data, generate_key_data] at hd
  obtain ⟨h1, _⟩ := append_cons_inj A.data B.data ':' k1.data k2.data hA hB hd
  exact hAB (string_eq_of_data A B h1)

/-- A key namespaced under colon-free Y never starts with "X:" for a
colon-free X different from Y. -/
theorem genKey_not_startswith (X Y k : String) (hXc : ':' ∉ X.data)
    (hYc : ':' ∉ Y.data) (hXY : X ≠ Y) :
    startswith (generate_key Y k) (X ++ ":") = false := by
  cases hsw : startswith (generate_key Y k) (X ++ ":") with
  | false => rfl
  | true =>
    exfalso
    have hb : (X ++ ":").data.isPrefixOf (generate_key Y k).data = true := hsw
    rw [isPrefixOf_iff] at hb
    obtain ⟨t, ht⟩ := hb
    rw [generate_key_data, data_append] at ht
    have hc : (":" : String).data = [':'] := rfl
    rw [hc, List.append_assoc] at ht
    have ht' : Y.data ++ ':' :: k.data = X.data ++ ':' :: t := by
      simpa using ht
    obtain ⟨h1, _⟩ := append_cons_inj Y.data X.data ':' k.data t hYc hXc ht'
    exact hXY (string_eq_of_data X Y h1.symm)

/-- Claim C1: round-trip on the store as implemented in this repository
(the in-process backend): for every key and every value, set(k, v)
followed immediately by get(k) on the same instance returns that value.
No serialization happens on this path, so this holds for every value. -/
theorem roundtrip_set_get_inmem (st : List (String × Entry)) (ns k : String)
    (v : Val) (t : Nat) :
    (Cache.getMem (Cache.setMem st ns k v none t).1 ns k t).2 = v := by
  simp [Cache.getMem, Cache.setMem, ttlTruthy, storeLookup_insert_self, isExpired]

/-- Claim C3: TTL semantics on the in-process backend, for a positive
ttl.  The entry written at time t with ttl ttlS carries expiry t + ttlS;
a get strictly after that time returns absent and evicts the entry, a
get at or before that time still returns the value; an entry written
without ttl never expires, whatever the later read time u. -/
theorem ttl_expiry_inmem (st : List (String × Entry)) (ns k : String) (v : Val)
    (ttlS t tLate tEarly u : Nat) (hpos : 0 < ttlS) (hLate : t + ttlS < tLate)
    (hEarly : tEarly ≤ t + ttlS) :
    (Cache.getMem (Cache.setMem st ns k v (some ttlS) t).1 ns k tLate).2 = Val.vNone
    ∧ storeLookup (generate_key ns k)
        ((Cache.getMem (Cache.setMem st ns k v (some ttlS) t).1 ns k tLate).1) = none
    ∧ (Cache.getMem (Cache.setMem st ns k v (some ttlS) t).1 ns k tEarly).2 = v
    ∧ (Cache.getMem (Cache.setMem st ns k v none t).1 ns k u).2 = v := by
  have hset : (Cache.setMem st ns k v (some ttlS) t).1
      = storeInsert (generate_key ns k) ⟨v, some (t + ttlS)⟩ st := by
    have hnz : ttlS ≠ 0 := by omega
    simp [Cache.setMem, ttlTruthy, hnz]
  have hexp : isExpired (some (t + ttlS)) tLate = true := by
    simp [isExpired]
    omega
  have hnexp : isExpired (some (t + ttlS)) tEarly = false := by
    simp [isExpired]
    omega
  refine ⟨?_, ?_, ?_, ?_⟩
  · simp [Cache.getMem, hset, storeLookup_insert_self, hexp]
  · simp [Cache.getMem, hset, storeLookup_insert_self, hexp, storeLookup_remove_self]
  · simp [Cache.getMem, hset, storeLookup_insert_self, hnexp]
  · simp [Cache.getMem, Cache.setMem, ttlTruthy, storeLookup_insert_self, isExpired]

/-- Claim C3 witness at concrete inputs: key "k" set at time 0 with
ttl 1 is gone (and evicted) at time 2, still present at time 1, and a
no-ttl entry is still present at time 3. -/
theorem ttl_expiry_inmem_witness :
    (Cache.getMem (Cache.setMem [] "bitebase" "k" (Val.vInt 7) (some 1) 0).1
        "bitebase" "k" 2).2 = Val.vNone
    ∧ storeLookup (generate_key "bitebase" "k")
        ((Cache.getMem (Cache.setMem [] "bitebase" "k" (Val.vInt 7) (some 1) 0).1
          "bitebase" "k" 2).1) = none
    ∧ (Cache.getMem (Cache.setMem [] "bitebase" "k" (Val.vInt 7) (some 1) 0).1
        "bitebase" "k" 1).2 = Val.vInt 7
    ∧ (Cache.getMem (Cache.setMem [] "bitebase" "k" (Val.vInt 7) none 0).1
        "bitebase" "k" 3).2 = Val.vInt 7 :=
  ttl_expiry_inmem [] "bitebase" "k" (Val.vInt 7) 1 0 2 1 3 (by decide) (by decide)
    (by decide)

/-- Claim C6 counterexample: the namespaced-key transform is not
injective across namespaces — namespace "a" with raw key "b:c" and
namespace "a:b" with raw key "c" produce the same stored key, and a set
under namespace "a" is observed by a get under the distinct namespace
"a:b".  This refutes the unconditional isolation claim. -/
theorem namespace_collision_cx :
    ("a" : String) ≠ "a:b"
    ∧ generate_key "a" "b:c" = generate_key "a:b" "c"
    ∧ (Cache.getMem (Cache.setMem [] "a" "b:c" (Val.vInt 7) none 0).1 "a:b" "c" 0).2
      = Val.vInt 7 := by
  refine ⟨by decide, by decide, by decide⟩

/-- Claim C6 (amended): provided the two namespaces are distinct and
neither contains a colon, they can never produce the same stored key,
and a set under namespace A is never observed by a get under
namespace B. -/
theorem namespace_isolation_amended (st : List (String × Entry)) (A B k1 k2 : String)
    (v : Val) (ttl : Option Nat) (t t' : Nat) (hA : ':' ∉ A.data) (hB : ':' ∉ B.data)
    (hAB : A ≠ B) :
    generate_key A k1 ≠ generate_key B k2
    ∧ (Cache.getMem (Cache.setMem st A k1 v ttl t).1 B k2 t').2
      = (Cache.getMem st B k2 t').2 := by
  have hkeys := generate_key_inj A B k1 k2 hA hB hAB
  refine ⟨hkeys, ?_⟩
  apply getMem_val_congr
  exact storeLookup_insert_ne (generate_key A k1) (generate_key B k2) _ st
    (Ne.symm hkeys)

/-- Claim C6 amended witness at concrete inputs. -/
theorem namespace_isolation_amended_witness :
    generate_key "a" "k1" ≠ generate_key "b" "k2"
    ∧ (Cache.getMem (Cache.setMem [] "a" "k1" (Val.vInt 1) none 0).1 "b" "k2" 0).2
      = (Cache.getMem [] "b" "k2" 0).2 :=
  namespace_isolation_amended [] "a" "b" "k1" "k2" (Val.vInt 1) none 0 0 (by decide)
    (by decide) (by decide)

/-- Claim C7 counterexample: clear(namespace="a") also removes the entry
stored under the different namespace "a:b" (its stored key "a:b:c"
starts with "a:"), so clearing one namespace is not guaranteed to leave
entries of every other namespace retrievable. -/
theorem clear_scoping_cx :
    ("a" : String) ≠ "a:b"
    ∧ (Cache.getMem (Cache.setMem [] "a:b" "c" (Val.vInt 1) none 0).1 "a:b" "c" 0).2
      = Val.vInt 1
    ∧ (Cache.getMem
        (Cache.clearMem (Cache.setMem [] "a:b" "c" (Val.vInt 1) none 0).1 (some "a")).1
        "a:b" "c" 0).2 = Val.vNone := by
  refine ⟨by decide, by decide, by decide⟩

/-- Claim C7 (amended): clear with a nonempty namespace X removes exactly
the entries whose stored keys start with "X:"; for a colon-free
namespace Y different from a colon-free X, get under Y observes the same
value before and after the scoped clear; clear with no namespace empties
the store. -/
theorem clear_scoping_amended (st : List (String × Entry)) (X Y k ck : String)
    (t : Nat) (hX : X ≠ "") (hXc : ':' ∉ X.data) (hYc : ':' ∉ Y.data) (hXY : X ≠ Y) :
    storeLookup ck (Cache.clearMem st (some X)).1
      = (if startswith ck (X ++ ":") then none else storeLookup ck st)
    ∧ (Cache.getMem (Cache.clearMem st (some X)).1 Y k t).2
      = (Cache.getMem st Y k t).2
    ∧ (Cache.clearMem st none).1 = [] := by
  have htr : optStrTruthy (some X) = true := by simp [optStrTruthy, hX]
  have hclear : (Cache.clearMem st (some X)).1
      = st.filter (fun kv => !(startswith kv.1 (X ++ ":"))) := by
    simp [Cache.clearMem, htr]
  refine ⟨?_, ?_, ?_⟩
  · rw [hclear]
    exact storeLookup_filter (fun s => startswith s (X ++ ":")) st ck
  · apply getMem_val_congr
    rw [hclear, storeLookup_filter (fun s => startswith s (X ++ ":")) st
      (generate_key Y k), genKey_not_startswith X Y k hXc hYc hXY]
    simp
  · simp [Cache.clearMem, optStrTruthy]

/-- Claim C9: a ttl of 0 is falsy in the source, so set with ttl 0 stores
exactly what set without a ttl stores (expires_at None in the in-process
backend), the value stays retrievable at every later time u, and on the
Redis path the same non-expiring SET command is issued as when the ttl
is omitted. -/
theorem ttl_zero_no_expiry (st : List (String × Entry)) (ns k : String) (v : Val)
    (t u : Nat) (bk : Backend) :
    Cache.setMem st ns k v (some 0) t = Cache.setMem st ns k v none t
    ∧ (Cache.getMem (Cache.setMem st ns k v (some 0) t).1 ns k u).2 = v
    ∧ Cache.setRedis bk ns k v (some 0) = Cache.setRedis bk ns k v none := by
  refine ⟨?_, ?_, ?_⟩
  · simp [Cache.setMem, ttlTruthy]
  · simp [Cache.getMem, Cache.setMem, ttlTruthy, storeLookup_insert_self, isExpired]
  · simp [Cache.setRedis, ttlTruthy]

/-- Claim C7 amended witness at concrete inputs. -/
theorem clear_scoping_amended_witness :
    storeLookup "y:k" (Cache.clearMem [("y:k", ⟨Val.vInt 2, none⟩)] (some "x")).1
      = (if startswith "y:k" ("x" ++ ":") then none
         else storeLookup "y:k" [("y:k", ⟨Val.vInt 2, none⟩)])
    ∧ (Cache.getMem (Cache.clearMem [("y:k", ⟨Val.vInt 2, none⟩)] (some "x")).1
        "y" "k" 0).2
      = (Cache.getMem [("y:k", ⟨Val.vInt 2, none⟩)] "y" "k" 0).2
    ∧ (Cache.clearMem [("y:k", ⟨Val.vInt 2, none⟩)] none).1 = [] :=
  clear_scoping_amended [("y:k", ⟨Val.vInt 2, none⟩)] "x" "y" "k" "y:k" 0 (by decide)
    (by decide) (by decide) (by decide)

/-- Two sorted association lists that are permutations of each other and
have no duplicate keys are equal (sortedness is by key only). -/
theorem sorted_perm_eq_of_nodup_keys :
    ∀ (l1 l2 : List (String × Arg)), l1.Perm l2 → l1.Sorted keyLe →
      l2.Sorted keyLe → (l1.map Prod.fst).Nodup → l1 = l2 := by
  intro l1
  induction l1 with
  | nil =>
    intro l2 hp _ _ _
    exact (hp.symm.eq_nil).symm
  | cons a t1 ih =>
    intro l2 hp hs1 hs2 hnd
    cases l2 with
    | nil => exact absurd hp.eq_nil (by simp)
    | cons b t2 =>
      have hs1' := List.sorted_cons.mp hs1
      have hs2' := List.sorted_cons.mp hs2
      rw [List.map_cons] at hnd
      have hnd' := List.nodup_cons.mp hnd
      have hab : a = b := by
        have hbmem : b ∈ a :: t1 := hp.symm.subset (List.mem_cons_self b t2)
        rcases List.mem_cons.mp hbmem with hba | hbt1
        · exact hba.symm
        · have hamem : a ∈ b :: t2 := hp.subset (List.mem_cons_self a t1)
          rcases List.mem_cons.mp hamem with hab' | hat2
          · exact hab'
          · have h1 : keyLe a b := hs1'.1 b hbt1
            have h2 : keyLe b a := hs2'.1 a hat2
            have hk : a.1 = b.1 := le_antisymm h1 h2
            have hmem' : b.1 ∈ t1.map Prod.fst := List.mem_map_of_mem Prod.fst hbt1
            rw [← hk] at hmem'
            exact absurd hmem' hnd'.1
      subst hab
      have hp' : t1.Perm t2 := hp.cons_inv
      have ht : t1 = t2 := ih t2 hp' hs1'.2 hs2'.2 hnd'.2
      rw [ht]

/-- Claim C5 counterexample: a transient request object (an object with
both method and url attributes) passed as a keyword argument does
participate in key derivation — changing only its attribute dictionary
changes the derived key, so the claimed exclusion fails for keyword
arguments. -/
theorem kwarg_transient_participates_cx :
    deriveKeyMaterial "p" "f" [] [("req", Arg.obj [("a", "x")] true true)]
      ≠ deriveKeyMaterial "p" "f" [] [("req", Arg.obj [("a", "y")] true true)] := by
  decide

/-- Claim C5 (amended): the derived key is deterministic — for equal
function identity and equal argument values it does not depend on the
order in which the keyword arguments were passed (sorted(kwargs.items())
with unique names) — and an argument recognized as a transient request
object contributes nothing to key derivation when passed positionally
(keyword-passed request objects do participate; only the positional loop
skips them). -/
theorem memo_key_determinism_amended (kp fn : String) (args pre post : List Arg)
    (flds : List (String × String)) (kwargs1 kwargs2 : List (String × Arg))
    (hperm : kwargs1.Perm kwargs2) (hnd : (kwargs1.map Prod.fst).Nodup) :
    deriveKeyMaterial kp fn args kwargs1 = deriveKeyMaterial kp fn args kwargs2
    ∧ deriveKeyMaterial kp fn (pre ++ Arg.obj flds true true :: post) kwargs1
      = deriveKeyMaterial kp fn (pre ++ post) kwargs1 := by
  constructor
  · have hsort : sortKwargs kwargs1 = sortKwargs kwargs2 := by
      apply sorted_perm_eq_of_nodup_keys
      · exact (List.perm_insertionSort keyLe kwargs1).trans
          (hperm.trans (List.perm_insertionSort keyLe kwargs2).symm)
      · exact List.sorted_insertionSort keyLe kwargs1
      · exact List.sorted_insertionSort keyLe kwargs2
      · exact ((List.perm_insertionSort keyLe kwargs1).map Prod.fst).nodup_iff.mpr hnd
    simp only [deriveKeyMaterial, hsort]
  · simp [deriveKeyMaterial, List.filterMap_append, List.filterMap_cons, argKeyPart]

/-- Claim C5 amended witness at concrete inputs: swapping the order of
two keyword arguments leaves the key material unchanged, and a
positional request object's attribute dictionary does not enter it. -/
theorem memo_key_determinism_amended_witness :
    deriveKeyMaterial "p" "f" [Arg.prim "1"]
        [("a", Arg.prim "u"), ("b", Arg.prim "w")]
      = deriveKeyMaterial "p" "f" [Arg.prim "1"]
        [("b", Arg.prim "w"), ("a", Arg.prim "u")]
    ∧ deriveKeyMaterial "p" "f"
        ([Arg.prim "x"] ++ Arg.obj [("q", "r")] true true :: [Arg.prim "y"])
        [("a", Arg.prim "u"), ("b", Arg.prim "w")]
      = deriveKeyMaterial "p" "f" ([Arg.prim "x"] ++ [Arg.prim "y"])
        [("a", Arg.prim "u"), ("b", Arg.prim "w")] :=
  memo_key_determinism_amended "p" "f" [Arg.prim "1"] [Arg.prim "x"] [Arg.prim "y"]
    [("q", "r")] [("a", Arg.prim "u"), ("b", Arg.prim "w")]
    [("b", Arg.prim "w"), ("a", Arg.prim "u")] (by decide) (by decide)

/-- Claim C4: error absorption.  Against a backend whose every operation
raises, the public operations return without raising (they are total
functions here): get absorbs the fault to None, set, delete and clear to
False; and the memoized wrapper, whose get sees a fault and whose set
fails, still returns the computation's correct result, invoking it
once. -/
theorem cache_ops_absorb_backend_faults {σ : Type} (bk : Backend) (ns k : String)
    (v : Val) (ttl : Option Nat) (nso : Option String) (f : σ → σ × Val) (cs : σ)
    (ttl2 : Nat) (kp fn : String) (args : List Arg) (kwargs : List (String × Arg))
    (hg : ∀ s, bk.rGet s = Except.error ())
    (hs : ∀ a b, bk.rSet a b = Except.error ())
    (hsx : ∀ a n b, bk.rSetex a n b = Except.error ())
    (hd : ∀ l, bk.rDelete l = Except.error ())
    (hk : ∀ p, bk.rKeys p = Except.error ())
    (hfl : bk.rFlushdb = Except.error ()) :
    Cache.getRedis bk ns k = Val.vNone
    ∧ Cache.setRedis bk ns k v ttl = false
    ∧ Cache.deleteRedis bk ns k = false
    ∧ Cache.clearRedis bk nso = false
    ∧ (cachedCallRedis ttl2 kp fn f args kwargs bk cs ns).value = (f cs).2
    ∧ (cachedCallRedis ttl2 kp fn f args kwargs bk cs ns).invocations = 1 := by
  have hget : ∀ key, Cache.getRedis bk ns key = Val.vNone := by
    intro key
    simp [Cache.getRedis, hg]
  have hset : ∀ key w tl, Cache.setRedis bk ns key w tl = false := by
    intro key w tl
    cases hser : serialize bk w with
    | error e => simp [Cache.setRedis, hser]
    | ok s =>
      cases htl : ttlTruthy tl
      · simp [Cache.setRedis, hser, htl, hs]
      · simp [Cache.setRedis, hser, htl, hsx]
  refine ⟨hget k, hset k v ttl, ?_, ?_, ?_, ?_⟩
  · simp [Cache.deleteRedis, hd]
  · cases hns : optStrTruthy nso
    · simp [Cache.clearRedis, hns, hfl]
    · simp [Cache.clearRedis, hns, hk]
  · simp [cachedCallRedis, hget]
  · simp [cachedCallRedis, hget]

/-- Claim C4 witness: the dead backend at concrete inputs. -/
theorem cache_ops_absorb_backend_faults_witness :
    Cache.getRedis failingBackend "bitebase" "k" = Val.vNone
    ∧ Cache.setRedis failingBackend "bitebase" "k" (Val.vInt 1) none = false
    ∧ Cache.deleteRedis failingBackend "bitebase" "k" = false
    ∧ Cache.clearRedis failingBackend none = false
    ∧ (cachedCallRedis 300 "" "g" (fun n : Nat => (n + 1, Val.vInt 1)) [] []
        failingBackend 0 "bitebase").value
      = ((fun n : Nat => (n + 1, Val.vInt 1)) 0).2
    ∧ (cachedCallRedis 300 "" "g" (fun n : Nat => (n + 1, Val.vInt 1)) [] []
        failingBackend 0 "bitebase").invocations = 1 :=
  cache_ops_absorb_backend_faults failingBackend "bitebase" "k" (Val.vInt 1) none
    none (fun n : Nat => (n + 1, Val.vInt 1)) 0 300 "" "g" [] []
    (fun _ => rfl) (fun _ _ => rfl) (fun _ _ _ => rfl) (fun _ => rfl) (fun _ => rfl)
    rfl

/-- Claim C8 counterexample: in the in-process backend no serialization
happens on set, so set of a non-serializable value (an object the json
module cannot dump) returns True — not False as claimed for both
backends — and the value is cached, not skipped: it is retrievable
later. -/
theorem inmem_set_nonserializable_cx :
    missBackend.jDumpsObj 7 = Except.error ()
    ∧ (Cache.setMem [] "bitebase" "k" (Val.vObj 7) none 0).2 = true
    ∧ (Cache.getMem (Cache.setMem [] "bitebase" "k" (Val.vObj 7) none 0).1
        "bitebase" "k" 1000).2 = Val.vObj 7 :=
  ⟨rfl, rfl, by decide⟩

/-- Claim C8 (amended): in the networked backend, set of a
non-serializable value returns False rather than raising, and a memoized
computation with a non-serializable result has that result skipped from
caching (the wrapper's set returns False) while the result is still
returned to the caller; in the in-process backend no serialization
occurs, so set stores the raw value and returns True. -/
theorem serialization_failure_amended {σ : Type} (bk : Backend) (ns k : String)
    (i : Nat) (ttl : Option Nat) (st : List (String × Entry)) (now : Nat)
    (f : σ → σ × Val) (cs : σ) (ttl2 : Nat) (kp fn : String) (args : List Arg)
    (kwargs : List (String × Arg))
    (hser : bk.jDumpsObj i = Except.error ())
    (hmiss : bk.rGet (generate_key ns (deriveKeyMaterial kp fn args kwargs))
      = Except.ok none)
    (hres : (f cs).2 = Val.vObj i) :
    Cache.setRedis bk ns k (Val.vObj i) ttl = false
    ∧ (cachedCallRedis ttl2 kp fn f args kwargs bk cs ns).value = (f cs).2
    ∧ (cachedCallRedis ttl2 kp fn f args kwargs bk cs ns).stored = false
    ∧ (cachedCallRedis ttl2 kp fn f args kwargs bk cs ns).invocations = 1
    ∧ (Cache.setMem st ns k (Val.vObj i) ttl now).2 = true
    ∧ (Cache.getMem (Cache.setMem st ns k (Val.vObj i) ttl now).1 ns k now).2
      = Val.vObj i := by
  have hsetf : ∀ key tl, Cache.setRedis bk ns key (Val.vObj i) tl = false := by
    intro key tl
    simp [Cache.setRedis, serialize, hser]
  have hcv : Cache.getRedis bk ns (deriveKeyMaterial kp fn args kwargs)
      = Val.vNone := by
    simp [Cache.getRedis, hmiss]
  refine ⟨hsetf k ttl, ?_, ?_, ?_, ?_, ?_⟩
  · simp [cachedCallRedis, hcv]
  · simp [cachedCallRedis, hcv, hres, hsetf]
  · simp [cachedCallRedis, hcv]
  · simp [Cache.setMem]
  · have hne : isExpired (some (now + ttl.getD 0)) now = false := by
      simp [isExpired]
    cases htl : ttlTruthy ttl
    · simp [Cache.getMem, Cache.setMem, htl, storeLookup_insert_self, isExpired]
    · simp [Cache.getMem, Cache.setMem, htl, storeLookup_insert_self, hne]

/-- Claim C8 amended witness: a computation returning the
non-serializable object 0, over an empty reachable backend. -/
theorem serialization_failure_amended_witness :
    Cache.setRedis missBackend "bitebase" "k" (Val.vObj 0) none = false
    ∧ (cachedCallRedis 300 "" "g" (fun n : Nat => (n + 1, Val.vObj 0)) [] []
        missBackend 0 "bitebase").value
      = ((fun n : Nat => (n + 1, Val.vObj 0)) 0).2
    ∧ (cachedCallRedis 300 "" "g" (fun n : Nat => (n + 1, Val.vObj 0)) [] []
        missBackend 0 "bitebase").stored = false
    ∧ (cachedCallRedis 300 "" "g" (fun n : Nat => (n + 1, Val.vObj 0)) [] []
        missBackend 0 "bitebase").invocations = 1
    ∧ (Cache.setMem [] "bitebase" "k" (Val.vObj 0) none 5).2 = true
    ∧ (Cache.getMem (Cache.setMem [] "bitebase" "k" (Val.vObj 0) none 5).1
        "bitebase" "k" 5).2 = Val.vObj 0 :=
  serialization_failure_amended missBackend "bitebase" "k" 0 none [] 5
    (fun n : Nat => (n + 1, Val.vObj 0)) 0 300 "" "g" [] [] rfl rfl rfl

/-- Claim C2 counterexample: wrapping a computation that increments a
counter and returns None.  Two calls with identical arguments at the
same instant (well inside the 300s ttl window) both take the miss path:
the counter is incremented twice, not once, because the wrapper treats a
cached None as a miss. -/
theorem memoize_none_result_reinvokes_cx :
    (twoCallsMem 300 "" "f" (fun n : Nat => (n + 1, Val.vNone)) [] [] [] 0
        "bitebase" 0 0).1.invocations = 1
    ∧ (twoCallsMem 300 "" "f" (fun n : Nat => (n + 1, Val.vNone)) [] [] [] 0
        "bitebase" 0 0).2.invocations = 1
    ∧ (twoCallsMem 300 "" "f" (fun n : Nat => (n + 1, Val.vNone)) [] [] [] 0
        "bitebase" 0 0).2.compState = 2 := by
  decide

/-- Claim C2 (amended): starting from a cache with no entry for the
derived key, and provided the computation's result is not None, two
calls of the memoized wrapper with identical arguments within the ttl
window return the same value, the computation runs exactly once (on the
first call), and the second call leaves the computation state
untouched. -/
theorem memoize_idempotent_amended {σ : Type} (f : σ → σ × Val) (cs0 : σ)
    (ttl : Nat) (kp fn : String) (args : List Arg) (kwargs : List (String × Arg))
    (st0 : List (String × Entry)) (ns : String) (t1 t2 : Nat)
    (hmiss : storeLookup (generate_key ns (deriveKeyMaterial kp fn args kwargs)) st0
      = none)
    (hres : (f cs0).2 ≠ Val.vNone)
    (hwin : t2 ≤ t1 + ttl) :
    (twoCallsMem ttl kp fn f args kwargs st0 cs0 ns t1 t2).1.value = (f cs0).2
    ∧ (twoCallsMem ttl kp fn f args kwargs st0 cs0 ns t1 t2).2.value = (f cs0).2
    ∧ (twoCallsMem ttl kp fn f args kwargs st0 cs0 ns t1 t2).1.invocations = 1
    ∧ (twoCallsMem ttl kp fn f args kwargs st0 cs0 ns t1 t2).2.invocations = 0
    ∧ (twoCallsMem ttl kp fn f args kwargs st0 cs0 ns t1 t2).2.compState
      = (f cs0).1 := by
  have hget1 : Cache.getMem st0 ns (deriveKeyMaterial kp fn args kwargs) t1
      = (st0, Val.vNone) := by
    simp [Cache.getMem, hmiss]
  have hr1 : cachedCallMem ttl kp fn f args kwargs st0 cs0 ns t1
      = ⟨(f cs0).2,
         (Cache.setMem st0 ns (deriveKeyMaterial kp fn args kwargs) (f cs0).2
           (some ttl) t1).1, (f cs0).1, 1⟩ := by
    simp [cachedCallMem, hget1]
  have hne : isExpired (some (t1 + ttl)) t2 = false := by
    have hlt : ¬(t1 + ttl < t2) := by omega
    simp [isExpired, hlt]
  have hget2 : Cache.getMem
      (Cache.setMem st0 ns (deriveKeyMaterial kp fn args kwargs) (f cs0).2
        (some ttl) t1).1 ns (deriveKeyMaterial kp fn args kwargs) t2
      = ((Cache.setMem st0 ns (deriveKeyMaterial kp fn args kwargs) (f cs0).2
          (some ttl) t1).1, (f cs0).2) := by
    cases htl : ttlTruthy (some ttl)
    · simp [Cache.getMem, Cache.setMem, htl, storeLookup_insert_self, isExpired]
    · simp [Cache.getMem, Cache.setMem, htl, storeLookup_insert_self, hne]
  have hr2 : cachedCallMem ttl kp fn f args kwargs
      (Cache.setMem st0 ns (deriveKeyMaterial kp fn args kwargs) (f cs0).2
        (some ttl) t1).1 (f cs0).1 ns t2
      = ⟨(f cs0).2,
         (Cache.setMem st0 ns (deriveKeyMaterial kp fn args kwargs) (f cs0).2
           (some ttl) t1).1, (f cs0).1, 0⟩ := by
    simp [cachedCallMem, hget2, hres]
  simp [twoCallsMem, hr1, hr2]

/-- Claim C2 amended witness: a counter computation returning the
counter value, called twice at times 0 and 100 with ttl 300. -/
theorem memoize_idempotent_amended_witness :
    (twoCallsMem 300 "" "g" (fun n : Nat => (n + 1, Val.vInt (n + 1))) [] [] [] 0
        "bitebase" 0 100).1.value
      = ((fun n : Nat => (n + 1, Val.vInt (n + 1))) 0).2
    ∧ (twoCallsMem 300 "" "g" (fun n : Nat => (n + 1, Val.vInt (n + 1))) [] [] [] 0
        "bitebase" 0 100).2.value
      = ((fun n : Nat => (n + 1, Val.vInt (n + 1))) 0).2
    ∧ (twoCallsMem 300 "" "g" (fun n : Nat => (n + 1, Val.vInt (n + 1))) [] [] [] 0
        "bitebase" 0 100).1.invocations = 1
    ∧ (twoCallsMem 300 "" "g" (fun n : Nat => (n + 1, Val.vInt (n + 1))) [] [] [] 0
        "bitebase" 0 100).2.invocations = 0
    ∧ (twoCallsMem 300 "" "g" (fun n : Nat => (n + 1, Val.vInt (n + 1))) [] [] [] 0
        "bitebase" 0 100).2.compState
      = ((fun n : Nat => (n + 1, Val.vInt (n + 1))) 0).1 :=
  memoize_idempotent_amended (fun n : Nat => (n + 1, Val.vInt (n + 1))) 0 300 "" "g"
    [] [] [] "bitebase" 0 100 rfl (by decide) (by decide)

/-- Claim C10: when the wrapped computation returns None — the store's
absent marker — the wrapper never serves that result from cache: the
second call with the same arguments re-invokes the computation, at any
later time t2, inside the ttl window or not. -/
theorem memoize_none_reinvokes {σ : Type} (f : σ → σ × Val) (cs0 : σ) (ttl : Nat)
    (kp fn : String) (args : List Arg) (kwargs : List (String × Arg))
    (st0 : List (String × Entry)) (ns : String) (t1 t2 : Nat)
    (hmiss : storeLookup (generate_key ns (deriveKeyMaterial kp fn args kwargs)) st0
      = none)
    (hres : (f cs0).2 = Val.vNone) :
    (twoCallsMem ttl kp fn f args kwargs st0 cs0 ns t1 t2).1.invocations = 1
    ∧ (twoCallsMem ttl kp fn f args kwargs st0 cs0 ns t1 t2).2.invocations = 1 := by
  have hget1 : Cache.getMem st0 ns (deriveKeyMaterial kp fn args kwargs) t1
      = (st0, Val.vNone) := by
    simp [Cache.getMem, hmiss]
  have hr1 : cachedCallMem ttl kp fn f args kwargs st0 cs0 ns t1
      = ⟨(f cs0).2,
         (Cache.setMem st0 ns (deriveKeyMaterial kp fn args kwargs) (f cs0).2
           (some ttl) t1).1, (f cs0).1, 1⟩ := by
    simp [cachedCallMem, hget1]
  have hval2 : (Cache.getMem
      (Cache.setMem st0 ns (deriveKeyMaterial kp fn args kwargs) (f cs0).2
        (some ttl) t1).1 ns (deriveKeyMaterial kp fn args kwargs) t2).2
      = Val.vNone := by
    cases htl : ttlTruthy (some ttl)
    · simp [Cache.getMem, Cache.setMem, htl, storeLookup_insert_self, isExpired, hres]
    · cases hex : isExpired (some (t1 + ttl)) t2
      · simp [Cache.getMem, Cache.setMem, htl, storeLookup_insert_self, hex, hres]
      · simp [Cache.getMem, Cache.setMem, htl, storeLookup_insert_self, hex, hres]
  have hr2 : (cachedCallMem ttl kp fn f args kwargs
      (Cache.setMem st0 ns (deriveKeyMaterial kp fn args kwargs) (f cs0).2
        (some ttl) t1).1 (f cs0).1 ns t2).invocations = 1 := by
    simp [cachedCallMem, hval2]
  simp [twoCallsMem, hr1, hr2]

/-- Claim C10 witness: a counter computation that always returns None,
called at times 0 and 100 with ttl 300. -/
theorem memoize_none_reinvokes_witness :
    (twoCallsMem 300 "" "h" (fun n : Nat => (n + 1, Val.vNone)) [] [] [] 0
        "bitebase" 0 100).1.invocations = 1
    ∧ (twoCallsMem 300 "" "h" (fun n : Nat => (n + 1, Val.vNone)) [] [] [] 0
        "bitebase" 0 100).2.invocations = 1 :=
  memoize_none_reinvokes (fun n : Nat => (n + 1, Val.vNone)) 0 300 "" "h" [] [] []
    "bitebase" 0 100 rfl rfl
